import Mathlib

/-!
Verification of the installation-context discovery logic of the
postinstall-debug repository: the Global-Mode Detector
(`is-global-mode.ts`), the Executable-Location Resolver
(`utils/get-installation-path.ts`), the Installed-File Finder
(`utils/find-installed-executables.ts`) and the Environment Diff
(`.github/workflows/utils/env-diff.ts`), shallowly embedded in Lean.

Host facilities (Node's `path` module, `JSON.parse`, the filesystem and
subprocess results) are modelled either as small executable Lean
functions (for the deterministic `path` algorithms) or as explicit
oracle parameters (for I/O whose outcome the code merely consumes).
-/

namespace PostinstallDebug

/-- The two host-OS families the scripts distinguish (`process.platform`):
`win32`, and every POSIX-like platform. -/
inductive Platform where
  | posix
  | win32
deriving DecidableEq

/-- `path.sep` for the platform. -/
def sepChar : Platform → Char
  | Platform.posix => '/'
  | Platform.win32 => '\\'

/-- `path.sep` as a one-character string. -/
def sepStr (p : Platform) : String :=
  String.mk [sepChar p]

/-- On win32 Node's path functions normalise forward slashes to
backslashes; on POSIX they are kept. Model of that normalisation step. -/
def normSlashes (p : Platform) (s : String) : String :=
  match p with
  | Platform.win32 => String.mk (s.toList.map (fun c => if c = '/' then '\\' else c))
  | Platform.posix => s

/-- Collapse every run of consecutive separator characters to a single
one, as Node's `path.normalize` does inside `path.join`. -/
def collapseSeps (sep : Char) : List Char → List Char
  | [] => []
  | [a] => [a]
  | a :: b :: rest =>
    if a = sep && b = sep then collapseSeps sep (b :: rest)
    else a :: collapseSeps sep (b :: rest)

/-- Model of Node `path.join(...parts)` for the segments this code joins:
empty segments are dropped, on win32 forward slashes become backslashes,
the segments are glued with `path.sep` and duplicate separators are
collapsed. (`.` and `..` segments never occur in the joined inputs, so
their resolution is not modelled.) -/
def pathJoin (p : Platform) (parts : List String) : String :=
  String.mk (collapseSeps (sepChar p)
    (String.intercalate (sepStr p) ((parts.filter (fun s => s ≠ "")).map (normSlashes p))).toList)

/-- JavaScript truthiness of an optional environment-variable value:
`undefined` and the empty string are falsy, any other string is kept. -/
def truthy : Option String → Option String
  | some s => if s = "" then none else some s
  | none => none

/-- `s.startsWith(pre)` on the characters of the strings. -/
def strStartsWith (s pre : String) : Bool :=
  pre.toList.isPrefixOf s.toList

/-- `s.endsWith(suf)` on the characters of the strings. -/
def strEndsWith (s suf : String) : Bool :=
  suf.toList.isSuffixOf s.toList

/-- Splitting a character list on a single separator character, the
semantics of `String.prototype.split` (and of Node's `path`/env splits,
whose separators — `path.sep`, `path.delimiter`, the space of the
user-agent scan — are all one character). -/
def splitOnChar (sep : Char) : List Char → List (List Char)
  | [] => [[]]
  | c :: rest =>
    if c = sep then [] :: splitOnChar sep rest
    else
      match splitOnChar sep rest with
      | [] => [[c]]
      | grp :: grps => (c :: grp) :: grps

/-- `s.split(sep)` for a one-character separator. -/
def strSplitOn (sep : Char) (s : String) : List String :=
  (splitOnChar sep s.toList).map String.mk

/-- `s.toLowerCase()` character by character. -/
def strToLower (s : String) : String :=
  String.mk (s.toList.map Char.toLower)

/-- A whitespace character as `String.prototype.trim` strips it (the
ASCII subset, all that subprocess output contains). -/
def isWsChar (c : Char) : Bool :=
  c = ' ' || c = '\t' || c = '\n' || c = '\r'

/-- `s.trim()`. -/
def strTrim (s : String) : String :=
  String.mk (((s.toList.dropWhile isWsChar).reverse.dropWhile isWsChar).reverse)

/-- JavaScript string comparison (code-unit lexicographic `<`), the
default `Array.prototype.sort` order. -/
def charListLt : List Char → List Char → Bool
  | [], [] => false
  | [], _ :: _ => true
  | _ :: _, [] => false
  | a :: as, b :: bs =>
    if a.toNat < b.toNat then true
    else if b.toNat < a.toNat then false
    else charListLt as bs

/-- `a < b` on strings as the JavaScript sort comparator orders them. -/
def strLtJs (a b : String) : Bool :=
  charListLt a.toList b.toList

/-- A JavaScript value as produced by `JSON.parse`: enough structure for
the property accesses the scripts perform (`typeof x === "object"`,
`Array.isArray`, `'key' in x`, `x?.field`, `indexOf`). -/
inductive Js where
  | null
  | bool (b : Bool)
  | num (n : Int)
  | str (s : String)
  | arr (elems : List Js)
  | obj (fields : List (String × Js))

/-- Optional-chaining property access `x?.k`: yields a value only when
`x` is an object owning the field; on `null`, arrays and primitives the
access yields `undefined` (here `none`). -/
def jsGet : Js → String → Option Js
  | Js.obj fields, k => (fields.find? (fun f => f.1 = k)).map Prod.snd
  | _, _ => none

/-- JavaScript `Array.prototype.indexOf(s)` for a string literal `s`
(strict equality: only a string element of the same text matches): the
index of the first occurrence, or `-1` when absent. -/
def jsStrIndexOf (l : List Js) (s : String) : Int :=
  match l.findIdx? (fun x => match x with | Js.str t => decide (t = s) | _ => false) with
  | some n => (n : Int)
  | none => -1

/-- The package-manager identity reported by the `used-pm` library
(derived by it from `npm_config_user_agent`). -/
structure PM where
  name : String
  version : String
deriving DecidableEq

/-- The Yarn-version test `/^[01]\./.test(version)` of
`is-global-mode.ts`: a major-version 0 or 1 Yarn. -/
def isYarnV1Version (v : String) : Bool :=
  strStartsWith v "0." || strStartsWith v "1."

/-- The positional check of the Yarn-v1 heuristic in `is-global-mode.ts`:
`0 <= original.indexOf('global') && original.indexOf('global') <
original.indexOf('add')`. -/
def yarnV1ArgvCheck (original : List Js) : Bool :=
  let globalPos := jsStrIndexOf original "global"
  let addPos := jsStrIndexOf original "add"
  decide (0 ≤ globalPos ∧ globalPos < addPos)

/-- `isGlobalModeFn` of `is-global-mode.ts`. `env` is `process.env`,
`pm` the result of `usedPM()`, and `jsonParse` models the host
`JSON.parse` (`none` = the parse throws). The result is `none` exactly
when the unguarded `JSON.parse` call throws, since that exception
escapes the function; otherwise `some` of the returned boolean. -/
def isGlobalModeFn (env : String → Option String) (pm : Option PM)
    (jsonParse : String → Option Js) : Option Bool :=
  if env "npm_config_global" = some "true" then some true
  else if pm.any (fun q => q.name = "npm" || q.name = "pnpm") then some false
  else if pm.any (fun q => q.name = "yarn") then
    if pm.any (fun q => isYarnV1Version q.version) then
      match truthy (env "npm_config_argv") with
      | some a =>
        match jsonParse a with
        | none => none
        | some npmArgv =>
          match jsGet npmArgv "original" with
          | some (Js.arr original) => some (yarnV1ArgvCheck original)
          | _ => some false
      | none => some false
    else some false
  else some false

/-- Whether the character list `pat` occurs in `cs` starting at index `i`. -/
def occursAt (cs pat : List Char) (i : Nat) : Bool :=
  pat.isPrefixOf (cs.drop i)

/-- Every start index at which `pat` occurs in `cs`, in increasing order. -/
def substrOccurrences (cs pat : List Char) : List Nat :=
  (List.range (cs.length + 1)).filter (occursAt cs pat)

/-- Whether `pat` occurs anywhere in `s`. -/
def containsStr (s pat : String) : Bool :=
  !(substrOccurrences s.toList pat.toList).isEmpty

/-- Whether index `j` of `cs` starts the 5-character tail `[/\\]\.bin` of
the regex `/node_modules.*[\/\\]\.bin/`. -/
def sepDotBinAt (cs : List Char) (j : Nat) : Bool :=
  match cs.drop j with
  | c :: '.' :: 'b' :: 'i' :: 'n' :: _ => c = '/' || c = '\\'
  | _ => false

/-- No newline among `cs[a..b)`: the regex's `.*` cannot cross a newline. -/
def noNewlineBetween (cs : List Char) (a b : Nat) : Bool :=
  ((cs.drop a).take (b - a)).all (fun c => c ≠ '\n')

/-- For a `node_modules` occurrence starting at `i`, the positions `j` at
which the `[/\\]\.bin` tail may end a regex match: `j` at or after the end
of the literal (index `i + 12`) with no newline in between. -/
def tailPositions (cs : List Char) (i : Nat) : List Nat :=
  (List.range cs.length).filter
    (fun j => decide (i + 12 ≤ j) && sepDotBinAt cs j && noNewlineBetween cs (i + 12) j)

/-- The match of `/node_modules.*[\/\\]\.bin/` in `cs`, as JavaScript's
regex engine finds it: the earliest start position of `node_modules` from
which the rest of the pattern can match, paired with the position of the
`[/\\]` of the greedy (right-most) `\.bin` tail reachable from it. -/
def regexMatchNmBin (cs : List Char) : Option (Nat × Nat) :=
  match (substrOccurrences cs ("node_modules".toList)).filter
      (fun i => !(tailPositions cs i).isEmpty) with
  | [] => none
  | i :: _ => some (i, (tailPositions cs i).foldl Nat.max 0)

/-- `dir.replace(/node_modules.*[\/\\]\.bin/, path.join('node_modules', '.bin'))`
at the end of `getInstallationPath`: the first (greedy) match is replaced
by `node_modules` + `path.sep` + `.bin`; a string without a match is
returned unchanged. -/
def replaceNodeModulesBin (p : Platform) (s : String) : String :=
  let cs := s.toList
  match regexMatchNmBin cs with
  | none => s
  | some (i, j) =>
    String.mk (cs.take i ++ ("node_modules".toList ++ [sepChar p] ++ ".bin".toList)
      ++ cs.drop (j + 5))

/-- The ambient state `get-installation-path.ts` consumes: the process
environment, platform, working directory, the `usedPM()` identity, and
oracles for the host filesystem, `JSON.parse` and the one subprocess it
may run. `npmBin` is the settled result of `execAsync('npm bin')` after
its `.catch` (a rejected promise is replaced by empty stdout/stderr, so
every outcome is a pair of strings). -/
structure SysEnv where
  env : String → Option String
  platform : Platform
  cwd : String
  pm : Option PM
  statIsFile : String → Bool
  readFile : String → Option String
  jsonParse : String → Option Js
  npmBin : String × String

/-- `stdout` of the settled `execAsync('npm bin')` call. -/
def SysEnv.npmBinStdout (S : SysEnv) : String := S.npmBin.1

/-- `stderr` of the settled `execAsync('npm bin')` call. -/
def SysEnv.npmBinStderr (S : SysEnv) : String := S.npmBin.2

/-- `isWorkspaceRoot` of `get-installation-path.ts`: under pnpm the
existence of `pnpm-workspace.yaml` in the directory; otherwise whether
`package.json` parses to a non-null object with a `workspaces` member
(`typeof x === 'object'` admits arrays, but `'workspaces' in x` is false
for a parsed JSON array); any read or parse failure is caught as false. -/
def isWorkspaceRoot (S : SysEnv) (dirpath : String) : Bool :=
  if S.pm.any (fun q => strToLower q.name = "pnpm") then
    S.statIsFile (pathJoin S.platform [dirpath, "pnpm-workspace.yaml"])
  else
    match S.readFile (pathJoin S.platform [dirpath, "package.json"]) with
    | none => false
    | some pkgJsonText =>
      match S.jsonParse pkgJsonText with
      | none => false
      | some pkgJson =>
        match pkgJson with
        | Js.obj fields => (fields.map Prod.fst).contains "workspaces"
        | _ => false

/-- The `isWorkspacePackage` test of `getInstallationPath`: whether
`npm_config_user_agent` contains the space-delimited token
`workspaces/true` (the regex `/(?:^| )workspaces\/true(?: |$)/`). -/
def isWorkspacePackage (env : String → Option String) : Bool :=
  match env "npm_config_user_agent" with
  | some ua => (strSplitOn ' ' ua).contains "workspaces/true"
  | none => false

/-- The first index at which two argument lists differ, `undefined`
comparison included: the loop over
`Math.max(cwdPathItems.length, initCwdPathItems.length)` indices in
`getInstallationPath`, where reading past an array's end yields
`undefined` (here `none`). -/
def firstDiffIdx (a b : List String) : Option Nat :=
  (List.range (Nat.max a.length b.length)).find? (fun i => a[i]? != b[i]?)

/-- The `INIT_CWD` fallback of the local branch of `getInstallationPath`:
split `process.cwd()` and `INIT_CWD` on `path.sep`, return the shared
prefix up to the first differing component with `node_modules/.bin`
appended, or throw when every component agrees. -/
def localInitCwdFallback (S : SysEnv) : Except String String :=
  match truthy (S.env "INIT_CWD") with
  | some initCwd =>
    let cwdPathItems := strSplitOn (sepChar S.platform) S.cwd
    let initCwdPathItems := strSplitOn (sepChar S.platform) initCwd
    match firstDiffIdx cwdPathItems initCwdPathItems with
    | some i =>
      Except.ok (String.intercalate (sepStr S.platform)
        (cwdPathItems.take i ++ ["node_modules", ".bin"]))
    | none => Except.error "Error finding binary installation directory"
  | none => Except.error "Error finding binary installation directory"

/-- The local (non-global) branch of `getInstallationPath`: a truthy
`npm_config_local_prefix` is used directly unless the install is a
workspace install and the prefix is a workspace root; otherwise the
`INIT_CWD` fallback runs. -/
def localInstallationPath (S : SysEnv) : Except String String :=
  match truthy (S.env "npm_config_local_prefix") with
  | some localPfx =>
    if !(isWorkspacePackage S.env) || !(isWorkspaceRoot S localPfx) then
      Except.ok (pathJoin S.platform [localPfx, "node_modules/.bin"])
    else localInitCwdFallback S
  | none => localInitCwdFallback S

/-- The ordered fallback of the global branch when `npm bin` yields no
usable output: a truthy `npm_config_prefix` joined with `bin`, else a
truthy `npm_config_local_prefix` joined with `node_modules/.bin`, else
(under pnpm) the working directory joined with `node_modules/.bin`, else
the `Error finding binary installation directory` throw. -/
def globalFallbackDir (S : SysEnv) : Except String String :=
  match truthy (S.env "npm_config_prefix") with
  | some pfx => Except.ok (pathJoin S.platform [pfx, "bin"])
  | none =>
    match truthy (S.env "npm_config_local_prefix") with
    | some localPfx =>
      Except.ok (pathJoin S.platform [localPfx, pathJoin S.platform ["node_modules", ".bin"]])
    | none =>
      if S.pm.any (fun q => strToLower q.name = "pnpm") then
        Except.ok (pathJoin S.platform [S.cwd, "node_modules", ".bin"])
      else Except.error "Error finding binary installation directory"

/-- The global branch of `getInstallationPath`: when
`stderr || !stdout || stdout.length === 0` the fallback chain decides,
otherwise the trimmed stdout is the directory; in both cases the
`node_modules.*[\/\\]\.bin` rewrite is applied to the returned path. -/
def globalInstallationPath (S : SysEnv) : Except String String :=
  let dirE :=
    if S.npmBinStderr ≠ "" ∨ S.npmBinStdout = "" then globalFallbackDir S
    else Except.ok (strTrim S.npmBinStdout)
  match dirE with
  | Except.error e => Except.error e
  | Except.ok dir => Except.ok (replaceNodeModulesBin S.platform dir)

/-- `getInstallationPath` of `get-installation-path.ts`, with the
module-level `isGlobalMode` constant passed explicitly. `Except.error`
models the thrown `Error`. -/
def getInstallationPath (S : SysEnv) (isGlobalMode : Bool) : Except String String :=
  if !isGlobalMode then localInstallationPath S
  else globalInstallationPath S

/-- Model of Node `path.dirname` (the POSIX algorithm, with the
separator generalised to the platform's; win32 drive-letter roots are
not modelled, as no claim exercises them): the prefix before the last
separator that still has a non-separator after it, `.` for a
separator-free relative path and the root for a rooted one. -/
def nodeDirname (sep : Char) (s : String) : String :=
  let cs := s.toList
  if cs.length = 0 then "."
  else
    let hasRoot := cs.head? = some sep
    let ends := (List.range cs.length).filter
      (fun i => decide (1 ≤ i) && decide (cs[i]? = some sep)
        && (cs.drop (i + 1)).any (fun c => c ≠ sep))
    match ends.getLast? with
    | none => if hasRoot then String.mk [sep] else "."
    | some e =>
      if hasRoot && e = 1 then String.mk [sep, sep]
      else String.mk (cs.take e)

/-- The `while (true)` ancestor walk of `findInstalledExecutables`:
collect the directory and every `path.dirname` ancestor until
`path.dirname` reaches its fixed point. The fuel argument only bounds
the recursion; `nodeDirname` reaches a fixed point (`/`, `\` or `.`)
within `s.length + 2` steps, so `ancestorChain` runs the walk to the
fixed point exactly as the source loop does. -/
def ancestorsGo (sep : Char) : Nat → String → List String
  | 0, s => [s]
  | fuel + 1, s =>
    let parentDir := nodeDirname sep s
    if parentDir = s then [s] else s :: ancestorsGo sep fuel parentDir

/-- A directory together with all its ancestors, innermost first. -/
def ancestorChain (sep : Char) (s : String) : List String :=
  ancestorsGo sep (s.length + 2) s

/-- Stable insertion of a string into a sorted list (ascending). -/
def insertSorted (x : String) : List String → List String
  | [] => [x]
  | y :: ys => if strLtJs y x then y :: insertSorted x ys else x :: y :: ys

/-- Model of JavaScript `Array.prototype.sort()` on strings: the stable
ascending sort by the default (code-unit lexicographic) comparison. -/
def sortStrings (l : List String) : List String :=
  l.foldr insertSorted []

/-- Deduplication pass of `new Set(...)` iteration: first occurrence of
each string kept, order preserved. -/
def setDedupGo (seen : List String) : List String → List String
  | [] => []
  | x :: xs =>
    if x ∈ seen then setDedupGo seen xs
    else x :: setDedupGo (x :: seen) xs

/-- `new Set(list)` iterated back into an array: duplicates dropped,
first occurrences in order. -/
def setDedup (l : List String) : List String :=
  setDedupGo [] l

/-- The inner `dirnameList.map` of `findInstalledExecutables`: a truthy
subdirectory name is joined onto the directory, the empty name means the
directory itself. -/
def expandDirnames (p : Platform) (dirnameList : List String) (cwd : String) : List String :=
  dirnameList.map (fun dirname => if dirname ≠ "" then pathJoin p [cwd, dirname] else cwd)

/-- The `bindirSet` of `findInstalledExecutables`: every ancestor of
every starting directory, sorted, crossed with the subdirectory names
and deduplicated in insertion order. -/
def bindirList (p : Platform) (cwdList dirnameList : List String) : List String :=
  setDedup ((sortStrings (cwdList.flatMap (ancestorChain (sepChar p)))).flatMap
    (expandDirnames p dirnameList))

/-- The filename filter of `findInstalledExecutables`:
`filename === binName || filename.startsWith(binName + '.')`. -/
def binNameMatch (binName filename : String) : Bool :=
  filename = binName || strStartsWith filename (binName ++ ".")

/-- The directory loop of `findInstalledExecutables`: list each
candidate directory (a failed `readdir` is caught as the empty listing),
keep the filenames matching the binary name and join them onto the
directory. `readdir` is the filesystem oracle: `none` models a listing
failure (for example a directory that does not exist). -/
def collectBinFiles (p : Platform) (readdir : String → Option (List String))
    (binName : String) : List String → List String
  | [] => []
  | bindir :: rest =>
    (((readdir bindir).getD []).filter (binNameMatch binName)).map
      (fun filename => pathJoin p [bindir, filename])
    ++ collectBinFiles p readdir binName rest

/-- `findInstalledExecutables` of `find-installed-executables.ts`. -/
def findInstalledExecutables (p : Platform) (readdir : String → Option (List String))
    (cwdList dirnameList : List String) (binName : String) : List String :=
  collectBinFiles p readdir binName (bindirList p cwdList dirnameList)

/-- The value filter of `envDiff` in `env-diff.ts`: `Object.entries(env2)`
(an association list with the object's unique keys), each value
normalised by `value ?? undefined` (so `null` and `undefined` coincide;
both are `none` here) and kept iff `env1[key] !== value`, where an
absent `env1` entry reads as `undefined`. The result models the
`Object.fromEntries` object (its custom-inspect display hook carries no
data and is not modelled). -/
def envDiff (env1 : String → Option String) (env2 : List (String × Option String)) :
    List (String × Option String) :=
  env2.filter (fun kv => env1 kv.1 != kv.2)

/-- The current snapshot's value of a variable as the claim's wording
reads it: the entry's (null-normalised) value when the variable appears
in `env2`, `undefined` when it does not. -/
def currentEnvValue (env2 : List (String × Option String)) (x : String) : Option String :=
  (env2.lookup x).join

/-- The comment block `genValueInspectFn` of `env-diff.ts` attaches to a
rendered value (its `commentList`). `delim` is `path.delimiter`,
`prefixRecord` the known-path record, and `value`/`origValue` the
current and baseline values (`none` = not a string). For a
`PATH`-named variable the value's entries are listed, and when the
baseline is a strict suffix of the value the trailing
`origPathLength` entries are spliced into one `... n more paths` line;
for other string values each matching known-path prefix yields an
`Equal to this:` line (`util.inspect` of the remainder modelled as
single-quoting). The splice start reproduces `Array.prototype.splice`'s
clamp of a negative start to zero (Nat subtraction clamps the same
way). -/
def genValueCommentList (delim : Char) (prefixRecord : List (String × Js))
    (key : String) (value origValue : Option String) : List String :=
  match value with
  | some v =>
    if strToLower key = "path" then
      let pathList := (strSplitOn delim v).map (fun q => "- " ++ q)
      let collapsed :=
        match origValue with
        | some orig =>
          if orig.length < v.length ∧ strEndsWith v orig then
            let origPathLength := (strSplitOn delim orig).length
            let start := pathList.length - origPathLength
            pathList.take start
              ++ ["... " ++ toString origPathLength ++ " more paths"]
              ++ pathList.drop (start + origPathLength)
          else pathList
        | none => pathList
      "PATH List:" :: collapsed
    else
      let compareList := prefixRecord.flatMap (fun nameAndPfx =>
        match nameAndPfx.2 with
        | Js.str pfxStr =>
          if strStartsWith v pfxStr then
            ["  " ++ nameAndPfx.1
              ++ (if v ≠ pfxStr then " + '" ++ v.drop pfxStr.length ++ "'" else "")]
          else []
        | _ => [])
      if 0 < compareList.length then "Equal to this:" :: compareList else []
  | none => []

theorem replaceNodeModulesBin_eq_self (p : Platform) (s : String)
    (h : containsStr s "node_modules" = false) : replaceNodeModulesBin p s = s := by
  have h0 : substrOccurrences s.toList ("node_modules".toList) = [] := by
    unfold containsStr at h
    cases hs : substrOccurrences s.toList ("node_modules".toList) with
    | nil => rfl
    | cons a l => rw [hs] at h; simp [List.isEmpty] at h
  simp only [replaceNodeModulesBin, regexMatchNmBin, h0, List.filter_nil]

/-- The environment of the C1 scenario on a POSIX platform: only
`npm_config_prefix` is set. -/
def envGlobalPfxPosix : String → Option String :=
  fun k => if k = "npm_config_prefix" then some "/usr/local" else none

/-- C1 scenario state, POSIX: global mode, `npm bin` yielded no output,
only `npm_config_prefix` set. -/
def sysC1posix : SysEnv where
  env := envGlobalPfxPosix
  platform := Platform.posix
  cwd := "/work"
  pm := none
  statIsFile := fun _ => false
  readFile := fun _ => none
  jsonParse := fun _ => none
  npmBin := ("", "")

/-- The environment of the C1 scenario on win32: only
`npm_config_prefix` is set. -/
def envGlobalPfxWin : String → Option String :=
  fun k => if k = "npm_config_prefix" then some "C:\\npm" else none

/-- C1 scenario state, win32. -/
def sysC1win : SysEnv where
  env := envGlobalPfxWin
  platform := Platform.win32
  cwd := "C:\\work"
  pm := none
  statIsFile := fun _ => false
  readFile := fun _ => none
  jsonParse := fun _ => none
  npmBin := ("", "")

/-- Claim C1, amended: in a global-mode invocation whose bin-query
subprocess yields no stdout, with a truthy `npm_config_prefix`, the
resolver returns the prefix joined with the `bin` subdirectory on EVERY
platform — win32 included, where `path.join` merely uses the backslash
separator. (The code has no win32 special case returning the bare
prefix; the side condition keeps the final `node_modules.*[\/\\]\.bin`
rewrite from touching the joined path, which it never does for a prefix
free of `node_modules`.) -/
theorem claim_C1_global_prefix_joined_with_bin (S : SysEnv) (pfx : String)
    (hOut : S.npmBinStdout = "")
    (hPfx : truthy (S.env "npm_config_prefix") = some pfx)
    (hNm : containsStr (pathJoin S.platform [pfx, "bin"]) "node_modules" = false) :
    getInstallationPath S true = Except.ok (pathJoin S.platform [pfx, "bin"]) := by
  have h2 : globalFallbackDir S = Except.ok (pathJoin S.platform [pfx, "bin"]) := by
    unfold globalFallbackDir
    rw [hPfx]
  have h1 : getInstallationPath S true = globalInstallationPath S := rfl
  rw [h1]
  unfold globalInstallationPath
  rw [if_pos (Or.inr hOut), h2]
  show Except.ok (replaceNodeModulesBin S.platform (pathJoin S.platform [pfx, "bin"])) =
    Except.ok (pathJoin S.platform [pfx, "bin"])
  rw [replaceNodeModulesBin_eq_self S.platform _ hNm]

/-- Claim C1, witness: the POSIX scenario resolves to `/usr/local/bin`. -/
theorem claim_C1_witness : getInstallationPath sysC1posix true = Except.ok "/usr/local/bin" :=
  claim_C1_global_prefix_joined_with_bin sysC1posix "/usr/local" rfl rfl (by decide)

/-- Claim C1, counterexample: on win32 with `npm_config_prefix` set to
`C:\npm`, `getInstallationPath` does NOT return the bare prefix — it
returns `C:\npm\bin` — contradicting the claim's win32 clause. -/
theorem claim_C1_counterexample :
    getInstallationPath sysC1win true = Except.ok "C:\\npm\\bin" ∧
      ¬ (getInstallationPath sysC1win true = Except.ok "C:\\npm") := by
  constructor
  · rfl
  · intro h
    rw [show getInstallationPath sysC1win true = Except.ok "C:\\npm\\bin" from rfl] at h
    injection h with h1
    exact absurd h1 (by decide)

/-- The Yarn-classic identity used by the C2 scenarios. -/
def pmYarn1 : Option PM := some { name := "yarn", version := "1.22.19" }

/-- The environment of a C2 scenario: `npm_config_argv` holds the given
raw JSON text. -/
def envArgv (raw : String) : String → Option String :=
  fun k => if k = "npm_config_argv" then some raw else none

/-- The `JSON.parse` oracle of the C2 scenarios: each raw text parses to
an object whose `original` member is the corresponding argument array. -/
def jsonParseC2 : String → Option Js :=
  fun s =>
    if s = "argv1" then
      some (Js.obj [("original", Js.arr [Js.str "--cache-folder", Js.str "x", Js.str "bin"])])
    else if s = "argv2" then
      some (Js.obj [("original", Js.arr [Js.str "global", Js.str "add"])])
    else if s = "argv3" then
      some (Js.obj [("original", Js.arr [Js.str "add", Js.str "global"])])
    else if s = "argv4" then
      some (Js.obj [("original", Js.arr [Js.str "--cache-folder", Js.str "global", Js.str "add"])])
    else none

/-- Claim C2, amended: under Yarn v1, original arguments
`["--cache-folder", "x", "bin"]` yield false and `["global", "add"]`
yield true, as claimed; but `["add", "global"]` (global AFTER add)
yields FALSE — the positional test requires `"global"` before `"add"`.
The documented unsound edge case is instead
`["--cache-folder", "global", "add"]`, where `"global"` is an option
value occurring before `"add"`: it yields true. -/
theorem claim_C2_yarn_argv_heuristic :
    isGlobalModeFn (envArgv "argv1") pmYarn1 jsonParseC2 = some false ∧
    isGlobalModeFn (envArgv "argv2") pmYarn1 jsonParseC2 = some true ∧
    isGlobalModeFn (envArgv "argv3") pmYarn1 jsonParseC2 = some false ∧
    isGlobalModeFn (envArgv "argv4") pmYarn1 jsonParseC2 = some true :=
  ⟨rfl, rfl, rfl, rfl⟩

/-- Claim C2, counterexample: with original arguments
`["add", "global"]` the detector does NOT report global mode, against
the claim's third case. -/
theorem claim_C2_counterexample :
    ¬ (isGlobalModeFn (envArgv "argv3") pmYarn1 jsonParseC2 = some true) := by
  intro h
  rw [show isGlobalModeFn (envArgv "argv3") pmYarn1 jsonParseC2 = some false from rfl] at h
  injection h with h1
  exact Bool.false_ne_true h1

/-- Claim C3: in local mode, a truthy `npm_config_local_prefix` that is
not a workspace root resolves to the prefix joined with
`node_modules/.bin` (whether or not the install is itself a workspace
install), and the result is independent of the bin-query subprocess
outcome — that branch never consults it. -/
theorem claim_C3_local_prefix_used (S : SysEnv) (localPfx : String)
    (hPfx : truthy (S.env "npm_config_local_prefix") = some localPfx)
    (hWs : isWorkspaceRoot S localPfx = false) :
    getInstallationPath S false =
        Except.ok (pathJoin S.platform [localPfx, "node_modules/.bin"]) ∧
      ∀ r₁ r₂ : String × String,
        getInstallationPath { S with npmBin := r₁ } false =
          getInstallationPath { S with npmBin := r₂ } false := by
  have key : ∀ r : String × String,
      getInstallationPath { S with npmBin := r } false =
        Except.ok (pathJoin S.platform [localPfx, "node_modules/.bin"]) := by
    intro r
    show localInstallationPath { S with npmBin := r } = _
    have he : ({ S with npmBin := r } : SysEnv).env = S.env := rfl
    have hw : isWorkspaceRoot { S with npmBin := r } localPfx = isWorkspaceRoot S localPfx := rfl
    have hp : ({ S with npmBin := r } : SysEnv).platform = S.platform := rfl
    simp only [localInstallationPath, he, hw, hp, hPfx, hWs, Bool.not_false, Bool.or_true]
    rfl
  refine ⟨?_, fun r₁ r₂ => (key r₁).trans (key r₂).symm⟩
  exact key S.npmBin

/-- C3 scenario state: local mode with `npm_config_local_prefix` set to
a directory whose `package.json` cannot be read (not a workspace root). -/
def sysC3 : SysEnv where
  env := fun k => if k = "npm_config_local_prefix" then some "/home/user/proj" else none
  platform := Platform.posix
  cwd := "/home/user/proj/node_modules/debug-pkg"
  pm := none
  statIsFile := fun _ => false
  readFile := fun _ => none
  jsonParse := fun _ => none
  npmBin := ("", "")

/-- Claim C3, witness: the scenario resolves to
`/home/user/proj/node_modules/.bin`. -/
theorem claim_C3_witness :
    getInstallationPath sysC3 false = Except.ok "/home/user/proj/node_modules/.bin" :=
  (claim_C3_local_prefix_used sysC3 "/home/user/proj" rfl rfl).1

theorem firstDiffIdx_self (a : List String) : firstDiffIdx a a = none := by
  unfold firstDiffIdx
  apply List.find?_eq_none.mpr
  intro i _
  simp

/-- Claim C10: in local mode, when the local-prefix branch does not
produce a path (the variable is not truthy, or the workspace-root check
rejects it) and `INIT_CWD` is truthy but splits into exactly the same
components as `process.cwd()`, `getInstallationPath` throws
`Error finding binary installation directory` even though the `INIT_CWD`
signal is present: the fallback returns a path only at the first
differing component. -/
theorem claim_C10_equal_initcwd_throws (S : SysEnv)
    (hPfx : ∀ q, truthy (S.env "npm_config_local_prefix") = some q →
      isWorkspacePackage S.env = true ∧ isWorkspaceRoot S q = true)
    (hInit : ∃ initCwd, truthy (S.env "INIT_CWD") = some initCwd ∧
      strSplitOn (sepChar S.platform) initCwd = strSplitOn (sepChar S.platform) S.cwd) :
    getInstallationPath S false =
      Except.error "Error finding binary installation directory" := by
  obtain ⟨initCwd, hi, he⟩ := hInit
  have hFallback : localInitCwdFallback S =
      Except.error "Error finding binary installation directory" := by
    simp only [localInitCwdFallback, hi, he, firstDiffIdx_self]
  show localInstallationPath S = _
  unfold localInstallationPath
  cases hq : truthy (S.env "npm_config_local_prefix") with
  | none => exact hFallback
  | some q =>
    obtain ⟨h1, h2⟩ := hPfx q hq
    simp only [h1, h2, Bool.not_true, Bool.or_self, Bool.false_eq_true, if_false]
    exact hFallback

/-- C10 scenario state: no local prefix, `INIT_CWD` equal to the working
directory. -/
def sysC10 : SysEnv where
  env := fun k => if k = "INIT_CWD" then some "/repo/pkg" else none
  platform := Platform.posix
  cwd := "/repo/pkg"
  pm := none
  statIsFile := fun _ => false
  readFile := fun _ => none
  jsonParse := fun _ => none
  npmBin := ("", "")

/-- Claim C10, witness: the scenario throws. -/
theorem claim_C10_witness :
    getInstallationPath sysC10 false =
      Except.error "Error finding binary installation directory" :=
  claim_C10_equal_initcwd_throws sysC10 (fun _ hq => nomatch hq)
    ⟨"/repo/pkg", rfl, rfl⟩

/-- Claim C4: an environment whose `npm_config_global` equals the exact
string `true` makes the detector report global mode for every
package-manager identity and every other signal; and any other value of
that variable does not by itself (no `npm_config_argv` signal present)
make the detector report global mode. -/
theorem claim_C4_npm_config_global_exact_true :
    (∀ (env : String → Option String) (pm : Option PM) (jsonParse : String → Option Js),
      env "npm_config_global" = some "true" →
        isGlobalModeFn env pm jsonParse = some true) ∧
    (∀ (env : String → Option String) (pm : Option PM) (jsonParse : String → Option Js),
      env "npm_config_global" ≠ some "true" →
      env "npm_config_argv" = none →
        isGlobalModeFn env pm jsonParse = some false) := by
  constructor
  · intro env pm jsonParse h
    simp only [isGlobalModeFn, h, if_pos]
  · intro env pm jsonParse h1 h2
    simp only [isGlobalModeFn, h1, h2, if_false, truthy]
    split
    · rfl
    · split
      · split
        · rfl
        · rfl
      · rfl

/-- Claim C4, witness: `npm_config_global = "true"` reports global under
a pnpm identity surrounded by contrary signals, and the truthy value
`1` alone does not. -/
theorem claim_C4_witness :
    isGlobalModeFn (fun k => if k = "npm_config_global" then some "true" else none)
        (some { name := "pnpm", version := "8.6.0" }) (fun _ => none) = some true ∧
      isGlobalModeFn (fun k => if k = "npm_config_global" then some "1" else none)
        (some { name := "npm", version := "9.0.0" }) (fun _ => none) = some false :=
  ⟨claim_C4_npm_config_global_exact_true.1 _ _ _ rfl,
    claim_C4_npm_config_global_exact_true.2 _ _ _ (by decide) rfl⟩

/-- Claim C5: for every package-manager identity, an environment with no
global markers — `npm_config_global` not the exact string `true`, and no
Yarn-v1 argument-vector signal (whenever the identity is Yarn v1 and
`npm_config_argv` is truthy, it parses to a value whose `original` array
does not place `global` before `add`) — makes the detector report local
mode. -/
theorem claim_C5_no_markers_local (env : String → Option String) (pm : Option PM)
    (jsonParse : String → Option Js)
    (hG : env "npm_config_global" ≠ some "true")
    (hA : ∀ a, truthy (env "npm_config_argv") = some a →
      pm.any (fun q => q.name = "yarn") = true →
      pm.any (fun q => isYarnV1Version q.version) = true →
      ∃ j, jsonParse a = some j ∧
        (match jsGet j "original" with
          | some (Js.arr original) => yarnV1ArgvCheck original
          | _ => false) = false) :
    isGlobalModeFn env pm jsonParse = some false := by
  unfold isGlobalModeFn
  rw [if_neg hG]
  split
  · rfl
  · rename_i hNpm
    split
    · rename_i hYarn
      split
      · rename_i hV1
        cases ha : truthy (env "npm_config_argv") with
        | none => rfl
        | some a =>
          obtain ⟨j, hj, hsig⟩ := hA a ha hYarn hV1
          simp only [hj]
          cases hg : jsGet j "original" with
          | none => rfl
          | some g =>
            simp only [hg] at hsig
            cases g with
            | arr original => exact congrArg some hsig
            | null => rfl
            | bool b => rfl
            | num n => rfl
            | str s => rfl
            | obj fields => rfl
      · rfl
    · rfl

/-- Claim C5, witness: a Yarn-v1 identity with a benign argument vector
(`["add", "global"]`) and `npm_config_global` unset reports local mode. -/
theorem claim_C5_witness :
    isGlobalModeFn (envArgv "argv3") pmYarn1 jsonParseC2 = some false := by
  refine claim_C5_no_markers_local (envArgv "argv3") pmYarn1 jsonParseC2 (by decide) ?_
  intro a ha h1 h2
  have haa : some "argv3" = some a := ha
  cases haa
  exact ⟨Js.obj [("original", Js.arr [Js.str "add", Js.str "global"])], rfl, rfl⟩

theorem mem_collectBinFiles (p : Platform) (readdir : String → Option (List String))
    (binName : String) (dirs : List String) (q : String) :
    q ∈ collectBinFiles p readdir binName dirs ↔
      ∃ d ∈ dirs, ∃ f ∈ (readdir d).getD [], binNameMatch binName f = true ∧
        q = pathJoin p [d, f] := by
  induction dirs with
  | nil => simp [collectBinFiles]
  | cons d rest ih =>
    simp only [collectBinFiles, List.mem_append, List.mem_map, List.mem_filter, ih,
      List.mem_cons, exists_eq_or_imp]
    constructor
    · rintro (⟨f, ⟨hf, hm⟩, rfl⟩ | h)
      · exact Or.inl ⟨f, hf, hm, rfl⟩
      · exact Or.inr h
    · rintro (⟨f, hf, hm, rfl⟩ | h)
      · exact Or.inl ⟨f, ⟨hf, hm⟩, rfl⟩
      · exact Or.inr h

/-- The filesystem oracle of the C6 example: one listable candidate
directory holding `foo`, `foo.cmd` and `foobar`. -/
def readdirC6 : String → Option (List String) :=
  fun d => if d = "/proj/node_modules/.bin" then some ["foo", "foo.cmd", "foobar"] else none

/-- Claim C6: every returned path is a candidate directory joined with a
directory entry whose name is the binary name or starts with
`binName + "."`, and every such entry of every candidate directory is
returned (the iff gives soundness and completeness at once); in
particular a directory holding `foo`, `foo.cmd`, `foobar` queried for
`foo` yields exactly the first two. -/
theorem claim_C6_finder_sound_complete :
    (∀ (p : Platform) (readdir : String → Option (List String))
        (cwdList dirnameList : List String) (binName q : String),
      q ∈ findInstalledExecutables p readdir cwdList dirnameList binName ↔
        ∃ d ∈ bindirList p cwdList dirnameList, ∃ f ∈ (readdir d).getD [],
          binNameMatch binName f = true ∧ q = pathJoin p [d, f]) ∧
    findInstalledExecutables Platform.posix readdirC6 ["/proj"] ["node_modules/.bin"] "foo"
      = ["/proj/node_modules/.bin/foo", "/proj/node_modules/.bin/foo.cmd"] :=
  ⟨fun p readdir cwdList dirnameList binName q =>
    mem_collectBinFiles p readdir binName (bindirList p cwdList dirnameList) q, rfl⟩

/-- Claim C6, witness: the completeness direction places the matching
entry `foo.cmd` of the example directory in the result. -/
theorem claim_C6_witness :
    "/proj/node_modules/.bin/foo.cmd" ∈
      findInstalledExecutables Platform.posix readdirC6 ["/proj"] ["node_modules/.bin"] "foo" :=
  (claim_C6_finder_sound_complete.1 Platform.posix readdirC6 ["/proj"] ["node_modules/.bin"]
      "foo" "/proj/node_modules/.bin/foo.cmd").mpr
    ⟨"/proj/node_modules/.bin", by decide, "foo.cmd", by decide, by decide, by decide⟩

theorem collectBinFiles_filter_listable (p : Platform)
    (readdir : String → Option (List String)) (binName : String) (dirs : List String) :
    collectBinFiles p readdir binName dirs =
      collectBinFiles p readdir binName (dirs.filter (fun d => (readdir d).isSome)) := by
  induction dirs with
  | nil => rfl
  | cons d rest ih =>
    cases hr : readdir d with
    | none => simp [collectBinFiles, List.filter_cons, hr, ih]
    | some l => simp [collectBinFiles, List.filter_cons, hr, ← ih]

/-- The filesystem oracle of the C7 example: the candidate directory
`/app/node_modules/.bin` is listable, every other directory (including
the candidate `/node_modules/.bin` built from the root ancestor) fails
to list. -/
def readdirC7 : String → Option (List String) :=
  fun d => if d = "/app/node_modules/.bin" then some ["tool", "tool.exe", "toolbox"] else none

/-- Claim C7: candidate directories that cannot be listed contribute
zero matches — the result equals the collection over the listable
candidate directories alone, and no error escapes (the embedding is
total because the source catches every `readdir` failure into an empty
listing); in particular a nonexistent candidate mixed with a valid one
yields exactly the valid directory's matches. -/
theorem claim_C7_unlistable_dirs_ignored :
    (∀ (p : Platform) (readdir : String → Option (List String))
        (cwdList dirnameList : List String) (binName : String),
      findInstalledExecutables p readdir cwdList dirnameList binName =
        collectBinFiles p readdir binName
          ((bindirList p cwdList dirnameList).filter (fun d => (readdir d).isSome))) ∧
    findInstalledExecutables Platform.posix readdirC7 ["/app"] ["node_modules/.bin"] "tool"
      = ["/app/node_modules/.bin/tool", "/app/node_modules/.bin/tool.exe"] :=
  ⟨fun p readdir cwdList dirnameList binName =>
    collectBinFiles_filter_listable p readdir binName (bindirList p cwdList dirnameList), rfl⟩

/-- Claim C7, witness: the unlistable candidate `/node_modules/.bin` can
be dropped without changing the example's result. -/
theorem claim_C7_witness :
    findInstalledExecutables Platform.posix readdirC7 ["/app"] ["node_modules/.bin"] "tool"
      = collectBinFiles Platform.posix readdirC7 "tool"
          ((bindirList Platform.posix ["/app"] ["node_modules/.bin"]).filter
            (fun d => (readdirC7 d).isSome)) :=
  claim_C7_unlistable_dirs_ignored.1 Platform.posix readdirC7 ["/app"] ["node_modules/.bin"] "tool"

theorem mem_envDiff_keys (env1 : String → Option String)
    (env2 : List (String × Option String)) (x : String) :
    x ∈ (envDiff env1 env2).map Prod.fst ↔ ∃ v, (x, v) ∈ env2 ∧ env1 x ≠ v := by
  simp only [envDiff, List.mem_map, List.mem_filter]
  constructor
  · rintro ⟨⟨k, v⟩, ⟨hmem, hne⟩, rfl⟩
    exact ⟨v, hmem, by simpa using hne⟩
  · rintro ⟨v, hmem, hne⟩
    exact ⟨(x, v), ⟨hmem, by simpa using hne⟩, rfl⟩

theorem assocKeyNodup_value_eq (l : List (String × Option String)) (x : String)
    (v w : Option String) (hnd : (l.map Prod.fst).Nodup)
    (hv : (x, v) ∈ l) (hw : (x, w) ∈ l) : v = w := by
  induction l with
  | nil => cases hv
  | cons kv rest ih =>
    simp only [List.map_cons, List.nodup_cons] at hnd
    rcases List.mem_cons.mp hv with hv1 | hv2
    · rcases List.mem_cons.mp hw with hw1 | hw2
      · rw [← hv1] at hw1
        exact congrArg Prod.snd hw1.symm
      · exfalso
        apply hnd.1
        rw [← hv1]
        exact List.mem_map.mpr ⟨(x, w), hw2, rfl⟩
    · rcases List.mem_cons.mp hw with hw1 | hw2
      · exfalso
        apply hnd.1
        rw [← hw1]
        exact List.mem_map.mpr ⟨(x, v), hv2, rfl⟩
      · exact ih hnd.2 hv2 hw2

/-- Claim C8, amended: `envDiff` keeps exactly the entries of the
current snapshot whose (null-normalised) value differs from the
baseline's (an absent baseline entry reading as undefined): a variable
is in the diff iff it appears in `env2` with a differing value; under
the unique keys a JavaScript object guarantees, an unchanged variable is
absent from the diff; and a variable with a string value in the current
snapshot but absent from the baseline is included (implicit undefined
baseline). A variable present only in the BASELINE, however, is never
included — `envDiff` iterates the current snapshot's entries only. -/
theorem claim_C8_envDiff_membership :
    (∀ (env1 : String → Option String) (env2 : List (String × Option String)) (x : String),
      x ∈ (envDiff env1 env2).map Prod.fst ↔ ∃ v, (x, v) ∈ env2 ∧ env1 x ≠ v) ∧
    (∀ (env1 : String → Option String) (env2 : List (String × Option String))
        (x : String) (v : Option String), (env2.map Prod.fst).Nodup →
      (x, v) ∈ env2 → env1 x = v → x ∉ (envDiff env1 env2).map Prod.fst) ∧
    (∀ (env1 : String → Option String) (env2 : List (String × Option String))
        (x s : String), env1 x = none → (x, some s) ∈ env2 →
      (x, some s) ∈ envDiff env1 env2) := by
  refine ⟨mem_envDiff_keys, ?_, ?_⟩
  · intro env1 env2 x v hnd hmem heq hk
    obtain ⟨w, hw, hne⟩ := (mem_envDiff_keys env1 env2 x).mp hk
    exact hne (heq ▸ assocKeyNodup_value_eq env2 x v w hnd hmem hw)
  · intro env1 env2 x s hnone hmem
    refine List.mem_filter.mpr ⟨hmem, ?_⟩
    simp [hnone]

/-- The baseline of the C8 counterexample: `REMOVED` was set. -/
def envBaselineC8 : String → Option String :=
  fun k => if k = "REMOVED" then some "1" else none

/-- Claim C8, counterexample: with baseline `{REMOVED: "1"}` and an
empty current snapshot, the variable's current value (undefined) differs
from its baseline, yet the diff does not contain it — the claimed
iff fails for variables present only in the baseline. -/
theorem claim_C8_counterexample :
    ¬ (("REMOVED" ∈ (envDiff envBaselineC8 []).map Prod.fst) ↔
        envBaselineC8 "REMOVED" ≠ currentEnvValue [] "REMOVED") := by
  decide

/-- Claim C8, witness: an unchanged variable `A` is dropped, a changed
variable `B` is kept in the key set. -/
theorem claim_C8_witness :
    ("REMOVED" ∉ (envDiff envBaselineC8 [("REMOVED", some "1")]).map Prod.fst) ∧
      ("B" ∈ (envDiff envBaselineC8 [("B", some "2")]).map Prod.fst) := by
  constructor
  · exact claim_C8_envDiff_membership.2.1 envBaselineC8 [("REMOVED", some "1")] "REMOVED"
      (some "1") (by decide) (by decide) (by decide)
  · exact (claim_C8_envDiff_membership.1 envBaselineC8 [("B", some "2")] "B").mpr
      ⟨some "2", by decide, by decide⟩

theorem take_marker_drop (l : List String) (n : Nat) (m : String) (h : n ≤ l.length) :
    l.take (l.length - n) ++ [m] ++ l.drop (l.length - n + n) =
      l.take (l.length - n) ++ [m] := by
  rw [Nat.sub_add_cancel h, List.drop_length, List.append_nil]

/-- Claim C9: for a variable whose name case-insensitively equals
`PATH`, when the baseline value is a strict suffix of the current value
the comment block renders the prepended entries of the current value's
delimiter split followed by one collapsed `... n more paths` placeholder
for the `n` baseline entries; in particular baseline `/usr/bin` under
current `/opt/foo/bin:/usr/bin` renders the prepended `/opt/foo/bin`
and the collapsed marker for the one unchanged path. -/
theorem claim_C9_path_collapse :
    (∀ (delim : Char) (prefixRecord : List (String × Js)) (key v orig : String),
      strToLower key = "path" →
      orig.length < v.length →
      strEndsWith v orig = true →
      (strSplitOn delim orig).length ≤ (strSplitOn delim v).length →
      genValueCommentList delim prefixRecord key (some v) (some orig) =
        "PATH List:" ::
          (((strSplitOn delim v).take
              ((strSplitOn delim v).length - (strSplitOn delim orig).length)).map
            (fun q => "- " ++ q)
          ++ ["... " ++ toString (strSplitOn delim orig).length ++ " more paths"])) ∧
    genValueCommentList ':' [] "PATH" (some "/opt/foo/bin:/usr/bin") (some "/usr/bin")
      = ["PATH List:", "- /opt/foo/bin", "... 1 more paths"] := by
  constructor
  · intro delim prefixRecord key v orig hKey hLen hEnds hCount
    simp only [genValueCommentList]
    rw [hKey, if_pos rfl, if_pos (And.intro hLen hEnds)]
    have hmap : ((strSplitOn delim v).map (fun q => "- " ++ q)).length
        = (strSplitOn delim v).length := by simp
    rw [take_marker_drop ((strSplitOn delim v).map (fun q => "- " ++ q))
        (strSplitOn delim orig).length
        ("... " ++ toString (strSplitOn delim orig).length ++ " more paths")
        (by rw [hmap]; exact hCount)]
    rw [hmap, List.map_take]
  · rfl

/-- Claim C9, witness: the collapse shape instantiated at the
mixed-case key `Path` with two prepended entries and a one-entry
baseline suffix. -/
theorem claim_C9_witness :
    genValueCommentList ':' [] "Path" (some "/a:/b:/c") (some "/c") =
      ["PATH List:", "- /a", "- /b", "... 1 more paths"] := by
  have h := claim_C9_path_collapse.1 ':' [] "Path" "/a:/b:/c" "/c" rfl (by decide) (by decide)
    (by decide)
  exact h

end PostinstallDebug
